import Mathlib

/-!
Verification development for the DVID ROI data type and HTTP server glue
(`datatype/roi/roi.go` and the `server` package files).

The Go code is shallowly embedded: machine `int32` values are `Int` with the
wrap-around made explicit through `wrap32`, `uint32` values are `Nat` kept
below `2^32`, byte strings are `List Nat`, and fallible code returns
`Except String`/`Option`.  Components of the repository that are not part of
the given sources (the `dvid` utility package and the ordered key-value
store) are modelled from the specification; each such definition carries a
doc comment starting with `Modelled from the spec:`.
-/

/-- Go `int32` wrap-around: reduce an exact integer into `[-2^31, 2^31)`.
Every Go arithmetic expression on `int32` operands equals `wrap32` of the
exact value, because wrapping after each operation or once at the end agree
modulo `2^32`. -/
def wrap32 (n : Int) : Int := (n + 2147483648) % 4294967296 - 2147483648

/-- Order-preserving 32-bit representative of an `int32` block coordinate.
Modelled from the spec: `dvid.IndexZYX.Bytes` is not under `src/`; spec §3
fixes 4-byte big-endian coordinate fields whose bytewise order must agree
with numeric `(z, y, x0)` order, since spec §4.1 requires `ProcessRange` to
enumerate keys in ascending byte order and §4.7.2 states `GET /roi` returns
spans in ascending `(z, y, x0)` order over the whole index range
`[minIndexRLE, maxIndexRLE]`. -/
def enc32 (n : Int) : Nat := ((n + 2147483648) % 4294967296).toNat

/-- Inverse of `enc32`. -/
def dec32 (u : Nat) : Int := (u : Int) - 2147483648

/-- Go conversion `uint32(v)` of an integer value (two's complement). -/
def enc32u (n : Int) : Nat := (n % 4294967296).toNat

/-- Go conversion `int32(u)` of a `uint32` value (two's complement). -/
def int32cast (u : Nat) : Int :=
  if u < 2147483648 then (u : Int) else (u : Int) - 4294967296

/-- Big-endian 4-byte encoding of a 32-bit value (`encoding/binary.Write`
with `binary.BigEndian`). -/
def be4 (n : Nat) : List Nat :=
  [n / 16777216 % 256, n / 65536 % 256, n / 256 % 256, n % 256]

/-- Big-endian read of a byte list (`binary.BigEndian.Uint32` on 4 bytes). -/
def fromBE4 (l : List Nat) : Nat := l.foldl (fun a b => a * 256 + b) 0

/-- `dvid.IndexZYX` is a `[3]int32` block coordinate stored as `[x, y, z]`
(`roi.go` uses `start[0]`=x, `start[1]`=y, `start[2]`=z, and
`index.start.Value(i)` reads component `i`). Modelled from the spec for the
parts outside `src/`. -/
structure IndexZYX where
  x : Int
  y : Int
  z : Int
deriving DecidableEq, Repr

/-- Modelled from the spec: `dvid.IndexZYX.Bytes`, §3 "Z (4B, big-endian) ‖
Y (4B, big-endian) ‖ X0 (4B, big-endian)", using the order-preserving 32-bit
representative `enc32` (see its doc comment). -/
def IndexZYX.Bytes (i : IndexZYX) : List Nat :=
  be4 (enc32 i.z) ++ be4 (enc32 i.y) ++ be4 (enc32 i.x)

/-- Modelled from the spec: `dvid.IndexZYX.IndexFromBytes` decodes the three
big-endian coordinates from 12 bytes. -/
def IndexZYX.IndexFromBytes (b : List Nat) : Except String IndexZYX :=
  if b.length = 12 then
    .ok ⟨dec32 (fromBE4 ((b.drop 8).take 4)),
         dec32 (fromBE4 ((b.drop 4).take 4)),
         dec32 (fromBE4 (b.take 4))⟩
  else .error "Illegal byte length for IndexZYX"

/-- `indexRLE` (roi.go lines 247-250): the key for block indices included in
an ROI, a start block plus a `uint32` span along X. -/
structure indexRLE where
  start : IndexZYX
  span : Nat
deriving DecidableEq, Repr

/-- `indexRLE.Bytes` (roi.go lines 252-260): start-index bytes followed by
the span as 4 big-endian bytes. -/
def indexRLE.Bytes (i : indexRLE) : List Nat :=
  i.start.Bytes ++ be4 i.span

/-- `indexRLE.IndexFromBytes` (roi.go lines 262-271): errors unless the
input is exactly 16 bytes; otherwise decodes the start from the first 12
bytes and the span from the last 4. -/
def indexRLE.IndexFromBytes (b : List Nat) : Except String indexRLE :=
  if b.length = 16 then
    match IndexZYX.IndexFromBytes (b.take 12) with
    | .error e => .error e
    | .ok start => .ok ⟨start, fromBE4 (b.drop 12)⟩
  else .error "Illegal byte length for ROI RLE Index"

/-- An `indexRLE` whose components are representable: coordinates are
`int32` values and the span is a `uint32` value. -/
def validRLE (r : indexRLE) : Prop :=
  -2147483648 ≤ r.start.x ∧ r.start.x < 2147483648 ∧
  -2147483648 ≤ r.start.y ∧ r.start.y < 2147483648 ∧
  -2147483648 ≤ r.start.z ∧ r.start.z < 2147483648 ∧
  r.span < 4294967296

instance : DecidablePred validRLE := fun r => by unfold validRLE; infer_instance

lemma enc32_lt (n : Int) : enc32 n < 4294967296 := by
  unfold enc32; omega

lemma dec32_enc32 (n : Int) (h1 : -2147483648 ≤ n) (h2 : n < 2147483648) :
    dec32 (enc32 n) = n := by
  unfold dec32 enc32; omega

lemma fromBE4_be4 (n : Nat) (h : n < 4294967296) : fromBE4 (be4 n) = n := by
  unfold fromBE4 be4
  simp only [List.foldl_cons, List.foldl_nil]
  omega

lemma be4_length (n : Nat) : (be4 n).length = 4 := rfl

lemma indexRLE_bytes_length (r : indexRLE) : r.Bytes.length = 16 := by
  unfold indexRLE.Bytes IndexZYX.Bytes be4
  simp

lemma decode_encode_comp (n : Int) (h1 : -2147483648 ≤ n) (h2 : n < 2147483648) :
    dec32 (fromBE4 (be4 (enc32 n))) = n := by
  rw [fromBE4_be4 _ (enc32_lt n)]; exact dec32_enc32 n h1 h2

set_option maxRecDepth 4000 in
/-- Decoding inverts encoding for representable RLE indices. -/
lemma indexRLE_roundtrip (r : indexRLE) (h : validRLE r) :
    indexRLE.IndexFromBytes r.Bytes = .ok r := by
  obtain ⟨⟨x, y, z⟩, s⟩ := r
  obtain ⟨hx1, hx2, hy1, hy2, hz1, hz2, hs⟩ := h
  have key : indexRLE.IndexFromBytes (indexRLE.Bytes ⟨⟨x, y, z⟩, s⟩)
      = .ok ⟨⟨dec32 (fromBE4 (be4 (enc32 x))), dec32 (fromBE4 (be4 (enc32 y))),
              dec32 (fromBE4 (be4 (enc32 z)))⟩, fromBE4 (be4 s)⟩ := rfl
  rw [key, decode_encode_comp x hx1 hx2, decode_encode_comp y hy1 hy2,
    decode_encode_comp z hz1 hz2, fromBE4_be4 s hs]

/-- Decoding errors exactly on byte strings that are not 16 bytes long. -/
lemma indexRLE_decode_error_iff (b : List Nat) :
    (∃ e, indexRLE.IndexFromBytes b = .error e) ↔ b.length ≠ 16 := by
  unfold indexRLE.IndexFromBytes IndexZYX.IndexFromBytes
  by_cases h : b.length = 16
  · simp [h, List.length_take]
  · simp [h]

/-- C7: for every ROI RLE index value, encoding yields exactly 16 bytes,
decoding those bytes recovers the original index, and decoding a byte string
fails exactly when it is not 16 bytes long. -/
theorem roi_c7_rle_roundtrip (r : indexRLE) (h : validRLE r) :
    r.Bytes.length = 16 ∧
    indexRLE.IndexFromBytes r.Bytes = .ok r ∧
    (∀ b : List Nat, (∃ e, indexRLE.IndexFromBytes b = .error e) ↔ b.length ≠ 16) :=
  ⟨indexRLE_bytes_length r, indexRLE_roundtrip r h, indexRLE_decode_error_iff⟩

theorem roi_c7_rle_roundtrip_witness :
    validRLE ⟨⟨3, 2, 1⟩, 5⟩ ∧
    (indexRLE.Bytes ⟨⟨3, 2, 1⟩, 5⟩).length = 16 ∧
    indexRLE.IndexFromBytes (indexRLE.Bytes ⟨⟨3, 2, 1⟩, 5⟩) = .ok ⟨⟨3, 2, 1⟩, 5⟩ ∧
    (∀ b : List Nat, (∃ e, indexRLE.IndexFromBytes b = .error e) ↔ b.length ≠ 16) :=
  ⟨by decide, roi_c7_rle_roundtrip ⟨⟨3, 2, 1⟩, 5⟩ (by decide)⟩

/-- A `(z, y, x0, x1)` span tuple (roi.go line 274: `type tuple [4]int32`,
with indices 0..3 holding z, y, x0, x1). -/
structure tuple where
  z : Int
  y : Int
  x0 : Int
  x1 : Int
deriving DecidableEq, Repr

/-- A voxel or block point; `dvid.Point3d`/`dvid.ChunkPoint3d` are
`[3]int32` arrays stored `[x, y, z]`. -/
structure Point3d where
  x : Int
  y : Int
  z : Int
deriving DecidableEq, Repr

/-- `tuple.less` (roi.go lines 276-287), verbatim: `block` is a
`ChunkPoint3d` so `block[2]`=z, `block[1]`=y, `block[0]`=x. -/
def tuple.less (t : tuple) (block : Point3d) : Bool :=
  if t.z > block.z then false
  else if t.y > block.y then false
  else if t.x1 > block.x then false
  else true

/-- `tuple.includes` (roi.go lines 289-300). -/
def tuple.includes (t : tuple) (block : Point3d) : Bool :=
  if t.z ≠ block.z then false
  else if t.y ≠ block.y then false
  else if t.x0 > block.x ∨ t.x1 < block.x then false
  else true

/-- Modelled from the spec: `dvid.Point3d.Chunk` maps voxel `(px,py,pz)` to
block `(px div Bx, py div By, pz div Bz)` (spec §3), with floor division so
negative voxels land in the correct block. -/
def chunkPoint (pt blockSize : Point3d) : Point3d :=
  ⟨Int.fdiv pt.x blockSize.x, Int.fdiv pt.y blockSize.y, Int.fdiv pt.z blockSize.z⟩

/-- Bytewise lexicographic comparison of keys.
Modelled from the spec: the ordered KV store compares keys bytewise
(spec §4.1). -/
def keyLt : List Nat → List Nat → Bool
  | _, [] => false
  | [], _ :: _ => true
  | a :: as, b :: bs => if a < b then true else if b < a then false else keyLt as bs

/-- Modelled from the spec: one `(instance, version)` context of the ordered
KV store, §4.1.  ROI values are empty, so the store is the set of present
keys, kept in strictly ascending bytewise order exactly as `ProcessRange`
enumerates them; a `Put` of an existing key overwrites it. -/
def insertKey (k : List Nat) : List (List Nat) → List (List Nat)
  | [] => [k]
  | k' :: rest =>
    if keyLt k k' then k :: k' :: rest
    else if k = k' then k' :: rest
    else k' :: insertKey k rest

/-- The 16-byte RLE key written for one posted span (roi.go lines 385-389):
`indexRLE{start: IndexZYX{span[2], span[1], span[0]}, span: uint32(span[3]-span[2]+1)}`. -/
def tupleKey (t : tuple) : List Nat :=
  indexRLE.Bytes ⟨⟨t.x0, t.y, t.z⟩, enc32u (t.x1 - t.x0 + 1)⟩

/-- Result of `Data.Put`: the updated `MinZ`/`MaxZ` extents, the store
contents, and whether the repo metadata save hook ran. -/
structure PutResult where
  minZ : Int
  maxZ : Int
  store : List (List Nat)
  repoSaved : Bool
deriving DecidableEq, Repr

/-- `Data.Put` (roi.go lines 343-403) applied to already-parsed spans.
Per span it folds the `MinZ`/`MaxZ` update (lines 378-384) and writes the
16-byte RLE key with an empty value (lines 385-389).  The prior contents are
NOT deleted: the deletion is only a TODO comment (lines 353-354).  Batch
boundaries (`BATCH_SIZE = 10000`) do not change the final store contents and
are not modelled.  The deferred `SaveRepoByVersionID` (lines 366-373) always
runs, recorded as `repoSaved`. -/
def dataPut (minZ maxZ : Int) (store : List (List Nat)) (spans : List tuple) :
    PutResult :=
  let fin := spans.foldl
    (fun (acc : Int × Int × List (List Nat)) sp =>
      ⟨if sp.z < acc.1 then sp.z else acc.1,
       if sp.z > acc.2.1 then sp.z else acc.2.1,
       insertKey (tupleKey sp) acc.2.2⟩)
    ⟨minZ, maxZ, store⟩
  ⟨fin.1, fin.2.1, fin.2.2, true⟩

/-- Fresh-instance extents (roi.go line 186:
`Properties{blockSize, math.MaxInt32, math.MinInt32}`). -/
def freshMinZ : Int := 2147483647

def freshMaxZ : Int := -2147483648

/-- Decode one stored RLE key back to a `(z, y, x0, x1)` tuple
(roi.go lines 309-324): `x1 := x0 + int32(index.span) - 1` in `int32`
arithmetic. -/
def decodeTuple (k : List Nat) : tuple :=
  let z := dec32 (fromBE4 (k.take 4))
  let y := dec32 (fromBE4 ((k.drop 4).take 4))
  let x0 := dec32 (fromBE4 ((k.drop 8).take 4))
  let span := fromBE4 ((k.drop 12).take 4)
  ⟨z, y, x0, wrap32 (x0 + int32cast span - 1)⟩

/-- `getROI` (roi.go lines 303-326): `ProcessRange` over
`[minIndexRLE.Bytes, maxIndexRLE.Bytes]` — the full index range of the
instance — decoding every key in ascending byte order. -/
def getROI (store : List (List Nat)) : List tuple := store.map decodeTuple

/-- A span tuple as `POST /roi` accepts it, with every component a
representable `int32`, `x0 ≤ x1`, and a span length below `2^31` (beyond
that, `x1 := x0 + int32(span) - 1` in `getROI` would re-wrap). -/
def validTuple (t : tuple) : Prop :=
  -2147483648 ≤ t.z ∧ t.z < 2147483648 ∧
  -2147483648 ≤ t.y ∧ t.y < 2147483648 ∧
  -2147483648 ≤ t.x0 ∧ t.x0 ≤ t.x1 ∧ t.x1 < 2147483648 ∧
  t.x1 - t.x0 + 1 < 2147483648

instance : DecidablePred validTuple := fun t => by unfold validTuple; infer_instance

lemma decodeTuple_tupleKey (t : tuple) (h : validTuple t) :
    decodeTuple (tupleKey t) = t := by
  obtain ⟨z, y, x0, x1⟩ := t
  have hz1 : -2147483648 ≤ z := h.1
  have hz2 : z < 2147483648 := h.2.1
  have hy1 : -2147483648 ≤ y := h.2.2.1
  have hy2 : y < 2147483648 := h.2.2.2.1
  have hx01 : -2147483648 ≤ x0 := h.2.2.2.2.1
  have hx0x1 : x0 ≤ x1 := h.2.2.2.2.2.1
  have hx12 : x1 < 2147483648 := h.2.2.2.2.2.2.1
  have hsp : x1 - x0 + 1 < 2147483648 := h.2.2.2.2.2.2.2
  have hspan : enc32u (x1 - x0 + 1) = (x1 - x0 + 1).toNat := by
    unfold enc32u; omega
  have key : decodeTuple (tupleKey ⟨z, y, x0, x1⟩) =
      ⟨dec32 (fromBE4 (be4 (enc32 z))), dec32 (fromBE4 (be4 (enc32 y))),
       dec32 (fromBE4 (be4 (enc32 x0))),
       wrap32 (dec32 (fromBE4 (be4 (enc32 x0)))
         + int32cast (fromBE4 (be4 (enc32u (x1 - x0 + 1)))) - 1)⟩ := rfl
  rw [key, decode_encode_comp z hz1 hz2, decode_encode_comp y hy1 hy2,
    decode_encode_comp x0 (by omega) (by omega)]
  have hlt : enc32u (x1 - x0 + 1) < 4294967296 := by unfold enc32u; omega
  rw [fromBE4_be4 _ hlt, hspan]
  have hcast : int32cast (x1 - x0 + 1).toNat = x1 - x0 + 1 := by
    unfold int32cast; omega
  rw [hcast]
  have : wrap32 (x0 + (x1 - x0 + 1) - 1) = x1 := by unfold wrap32; omega
  rw [this]

lemma keyLt_connex (a : List Nat) :
    ∀ b, keyLt a b = false → a ≠ b → keyLt b a = true := by
  induction a with
  | nil =>
    intro b h hne
    cases b with
    | nil => exact absurd rfl hne
    | cons y ys => simp [keyLt] at h
  | cons x xs ih =>
    intro b h hne
    cases b with
    | nil => rfl
    | cons y ys =>
      unfold keyLt at h ⊢
      by_cases h1 : x < y
      · simp [h1] at h
      · by_cases h2 : y < x
        · simp [h1, h2]
        · have hxy : x = y := by omega
          subst hxy
          simp only [lt_irrefl, if_false] at h ⊢
          exact ih ys h (fun hh => hne (by rw [hh]))

lemma mem_insertKey (k x : List Nat) (l : List (List Nat)) :
    x ∈ insertKey k l ↔ x = k ∨ x ∈ l := by
  induction l with
  | nil => simp [insertKey]
  | cons k' rest ih =>
    unfold insertKey
    by_cases h1 : keyLt k k' = true
    · simp [h1, List.mem_cons]
    · by_cases h2 : k = k'
      · subst h2
        simp [h1, List.mem_cons]
      · rw [if_neg h1, if_neg h2, List.mem_cons, ih, List.mem_cons]
        tauto

lemma insertKey_head (k : List Nat) (l : List (List Nat)) :
    (insertKey k l).head? = some k ∨ (insertKey k l).head? = l.head? := by
  cases l with
  | nil => left; rfl
  | cons k' rest =>
    unfold insertKey
    by_cases h1 : keyLt k k' = true
    · simp [h1]
    · by_cases h2 : k = k'
      · subst h2; simp [h1]
      · simp [h1, h2]

lemma chain'_insertKey (k : List Nat) (l : List (List Nat))
    (h : List.Chain' (fun a b => keyLt a b = true) l) :
    List.Chain' (fun a b => keyLt a b = true) (insertKey k l) := by
  induction l with
  | nil => simp [insertKey]
  | cons k' rest ih =>
    unfold insertKey
    by_cases h1 : keyLt k k' = true
    · simp only [h1, if_true]
      exact List.chain'_cons.mpr ⟨h1, h⟩
    · by_cases h2 : k = k'
      · subst h2
        simp only [h1, if_false, if_pos rfl]
        exact h
      · simp only [h1, h2, if_false]
        have hins := ih (List.Chain'.tail h)
        refine List.chain'_cons'.mpr ⟨?_, hins⟩
        intro hd hhd
        rcases insertKey_head k rest with hh | hh
        · rw [hh] at hhd
          have hk : k = hd := by simpa using hhd
          subst hk
          exact keyLt_connex k k' (by simpa using h1) h2
        · rw [hh] at hhd
          exact (List.chain'_cons'.mp h).1 hd hhd

lemma foldl_insert_mem (spans : List tuple) :
    ∀ (st : List (List Nat)) (k : List Nat),
      k ∈ spans.foldl (fun s sp => insertKey (tupleKey sp) s) st ↔
        k ∈ st ∨ ∃ sp ∈ spans, tupleKey sp = k := by
  induction spans with
  | nil => intro st k; simp
  | cons sp rest ih =>
    intro st k
    rw [List.foldl_cons, ih, mem_insertKey]
    constructor
    · rintro ((h | h) | ⟨sp1, hsp1, hk⟩)
      · exact Or.inr ⟨sp, List.mem_cons_self sp rest, h.symm⟩
      · exact Or.inl h
      · exact Or.inr ⟨sp1, List.mem_cons_of_mem sp hsp1, hk⟩
    · rintro (h | ⟨sp1, hsp1, hk⟩)
      · exact Or.inl (Or.inr h)
      · rcases List.mem_cons.mp hsp1 with h1 | h1
        · subst h1; exact Or.inl (Or.inl hk.symm)
        · exact Or.inr ⟨sp1, h1, hk⟩

lemma foldl_insert_chain (spans : List tuple) :
    ∀ st : List (List Nat),
      List.Chain' (fun a b => keyLt a b = true) st →
      List.Chain' (fun a b => keyLt a b = true)
        (spans.foldl (fun s sp => insertKey (tupleKey sp) s) st) := by
  induction spans with
  | nil => intro st h; exact h
  | cons sp rest ih =>
    intro st h
    rw [List.foldl_cons]
    exact ih _ (chain'_insertKey _ _ h)

lemma dataPut_components (spans : List tuple) :
    ∀ (mz Mz : Int) (st : List (List Nat)),
      (dataPut mz Mz st spans).store =
          spans.foldl (fun s sp => insertKey (tupleKey sp) s) st ∧
        (dataPut mz Mz st spans).minZ =
          spans.foldl (fun a sp => if sp.z < a then sp.z else a) mz ∧
        (dataPut mz Mz st spans).maxZ =
          spans.foldl (fun a sp => if sp.z > a then sp.z else a) Mz := by
  induction spans with
  | nil => intro mz Mz st; exact ⟨rfl, rfl, rfl⟩
  | cons sp rest ih =>
    intro mz Mz st
    have h := ih (if sp.z < mz then sp.z else mz) (if sp.z > Mz then sp.z else Mz)
      (insertKey (tupleKey sp) st)
    exact ⟨by rw [List.foldl_cons]; exact h.1,
           by rw [List.foldl_cons]; exact h.2.1,
           by rw [List.foldl_cons]; exact h.2.2⟩

/-- C2 (amended): `POST /roi` performs no sorting or merging of the posted
tuples; the store simply holds one 16-byte key per distinct posted tuple, so
a subsequent `GET /roi` returns exactly the posted tuples, each once, in
strictly ascending bytewise key order. -/
theorem roi_c2_amended (spans : List tuple) (hv : ∀ t ∈ spans, validTuple t) :
    List.Chain' (fun a b => keyLt a b = true)
      (dataPut freshMinZ freshMaxZ [] spans).store ∧
    ∀ t : tuple, t ∈ getROI (dataPut freshMinZ freshMaxZ [] spans).store ↔ t ∈ spans := by
  have hst := (dataPut_components spans freshMinZ freshMaxZ []).1
  constructor
  · rw [hst]
    exact foldl_insert_chain spans [] List.chain'_nil
  · intro t
    unfold getROI
    rw [List.mem_map]
    constructor
    · rintro ⟨k, hk, rfl⟩
      rw [hst, foldl_insert_mem] at hk
      rcases hk with h | ⟨sp, hsp, rfl⟩
      · simp at h
      · rw [decodeTuple_tupleKey sp (hv sp hsp)]
        exact hsp
    · intro ht
      refine ⟨tupleKey t, ?_, decodeTuple_tupleKey t (hv t ht)⟩
      rw [hst, foldl_insert_mem]
      exact Or.inr ⟨t, ht, rfl⟩

theorem roi_c2_amended_witness :
    (∀ t ∈ [tuple.mk 0 0 2 3, tuple.mk 0 0 0 1], validTuple t) ∧
    (List.Chain' (fun a b => keyLt a b = true)
      (dataPut freshMinZ freshMaxZ [] [tuple.mk 0 0 2 3, tuple.mk 0 0 0 1]).store ∧
    ∀ t : tuple,
      t ∈ getROI (dataPut freshMinZ freshMaxZ [] [tuple.mk 0 0 2 3, tuple.mk 0 0 0 1]).store ↔
        t ∈ [tuple.mk 0 0 2 3, tuple.mk 0 0 0 1]) :=
  ⟨by decide, roi_c2_amended [tuple.mk 0 0 2 3, tuple.mk 0 0 0 1] (by decide)⟩

/-- Strict ascent in `(z, y, x0)` over consecutive returned spans, as claim
C2 states it. -/
def ascendingZYX0 (l : List tuple) : Prop :=
  List.Chain'
    (fun a b => a.z < b.z ∨ (a.z = b.z ∧ (a.y < b.y ∨ (a.y = b.y ∧ a.x0 < b.x0)))) l

/-- Two spans on the same row whose X intervals touch or overlap, as claim
C2 states it. -/
def spansTouchOrOverlap (a b : tuple) : Prop :=
  a.z = b.z ∧ a.y = b.y ∧ a.x0 ≤ b.x1 + 1 ∧ b.x0 ≤ a.x1 + 1

instance : DecidablePred ascendingZYX0 := fun l => by
  unfold ascendingZYX0; infer_instance

instance (a b : tuple) : Decidable (spansTouchOrOverlap a b) := by
  unfold spansTouchOrOverlap; infer_instance

/-- C2 as stated is false: posting `[[0,0,2,3],[0,0,0,1]]` (each with
`x0 ≤ x1`) stores both spans unmerged, and `GET /roi` then returns the
touching pair `[[0,0,0,1],[0,0,2,3]]` — no merge of touching intervals ever
happens (`Data.Put` writes the parsed tuples directly). -/
theorem roi_c2_counterexample :
    getROI (dataPut freshMinZ freshMaxZ [] [tuple.mk 0 0 2 3, tuple.mk 0 0 0 1]).store =
      [tuple.mk 0 0 0 1, tuple.mk 0 0 2 3] ∧
    ¬ (ascendingZYX0
        (getROI (dataPut freshMinZ freshMaxZ [] [tuple.mk 0 0 2 3, tuple.mk 0 0 0 1]).store) ∧
      List.Pairwise (fun a b => ¬ spansTouchOrOverlap a b)
        (getROI (dataPut freshMinZ freshMaxZ [] [tuple.mk 0 0 2 3, tuple.mk 0 0 0 1]).store)) := by
  constructor
  · decide
  · intro h
    have := h.2
    rw [show getROI (dataPut freshMinZ freshMaxZ [] [tuple.mk 0 0 2 3, tuple.mk 0 0 0 1]).store =
      [tuple.mk 0 0 0 1, tuple.mk 0 0 2 3] from by decide] at this
    have hpair := List.rel_of_pairwise_cons this (List.mem_singleton.mpr rfl)
    exact hpair (by decide)

/-- C3 is false of the code: `Data.Put` never deletes the prior contents
(the deletion is a TODO comment at roi.go lines 353-354), so after posting
`[[5,5,5,5]]` and then `[[0,0,0,0]]`, `GET /roi` still returns the old span
alongside the new one. -/
theorem roi_c3_no_overwrite :
    getROI (dataPut
        (dataPut freshMinZ freshMaxZ [] [tuple.mk 5 5 5 5]).minZ
        (dataPut freshMinZ freshMaxZ [] [tuple.mk 5 5 5 5]).maxZ
        (dataPut freshMinZ freshMaxZ [] [tuple.mk 5 5 5 5]).store
        [tuple.mk 0 0 0 0]).store =
      [tuple.mk 0 0 0 0, tuple.mk 5 5 5 5] := by decide

/-- Modelled from the spec: `dvid.ByZYX` orders points by z, then y, then x
(spec §4.7.3 step 2 sorts the query points into that order). -/
def byZYXLt (p q : Point3d) : Bool :=
  if p.z < q.z then true
  else if q.z < p.z then false
  else if p.y < q.y then true
  else if q.y < p.y then false
  else decide (p.x < q.x)

/-- Insert into a `byZYXLt`-sorted list. -/
def insertPt (p : Point3d) : List Point3d → List Point3d
  | [] => [p]
  | q :: rest => if byZYXLt p q then p :: q :: rest else q :: insertPt p rest

/-- Modelled from the spec: `sort.Sort(dvid.ByZYX(pts))` — the query points
sorted into (z, y, x) order (insertion sort; `PointQuery` then scans this
sorted list). -/
def sortPoints : List Point3d → List Point3d
  | [] => []
  | p :: rest => insertPt p (sortPoints rest)

/-- The loop of `Data.seekSpan` (roi.go lines 415-430).  The extra `Nat`
argument counts the remaining in-bounds iterations `spans.length - i`; the
loop body runs at most that often because the index only increases and the
loop exits at `curSpanI >= numSpans`. -/
def seekSpanLoop (chunkPt : Point3d) (spans : List tuple) : Nat → Nat → Nat × Bool
  | i, 0 => (i, false)
  | i, fuel + 1 =>
    match spans[i]? with
    | none => (i, false)
    | some curSpan =>
      if curSpan.less chunkPt then seekSpanLoop chunkPt spans (i + 1) fuel
      else (i, curSpan.includes chunkPt)

/-- `Data.seekSpan` (roi.go lines 405-431): starting at `curSpanI`, advance
while the current span is `less` than the point's block, then test
inclusion; out-of-bounds yields `false`. -/
def seekSpan (blockSize pt : Point3d) (spans : List tuple) (curSpanI : Nat) :
    Nat × Bool :=
  seekSpanLoop (chunkPoint pt blockSize) spans curSpanI (spans.length - curSpanI)

/-- The query loop of `Data.PointQuery` (roi.go lines 450-456): walk the
sorted points, threading the span cursor, recording one Bool per point. -/
def pqLoop (blockSize : Point3d) (spans : List tuple) :
    List Point3d → Nat → List Bool
  | [], _ => []
  | p :: ps, cur =>
    let r := seekSpan blockSize p spans cur
    r.2 :: pqLoop blockSize spans ps r.1

/-- `Data.PointQuery` (roi.go lines 433-464): sort the parsed points by
(z, y, x), fetch the stored spans via `getROI`, and scan.  Note the
inclusion list is indexed by the SORTED position of each point. -/
def pointQuery (blockSize : Point3d) (store : List (List Nat))
    (pts : List Point3d) : List Bool :=
  pqLoop blockSize (getROI store) (sortPoints pts) 0

/-- C1 is false of the code: with BlockSize (32,32,32) and the stored ROI
`[[0,0,0,1]]` (blocks (0,0,0) and (1,0,0)), the single-point query
`[[32,0,0]]` — whose block (1,0,0) is the last block of the span — returns
`[false]`: `tuple.less` (roi.go 276-287) treats a span whose `x1` is `<=`
the query block's x as strictly before it, so `seekSpan` skips past the
containing span.  The second conjunct checks the block really is inside the
span, so the claimed equivalence fails at index 0. -/
theorem roi_c1_seek_bug :
    pointQuery ⟨32, 32, 32⟩
        (dataPut freshMinZ freshMaxZ [] [tuple.mk 0 0 0 1]).store
        [Point3d.mk 32 0 0] = [false] ∧
    tuple.includes (tuple.mk 0 0 0 1) (chunkPoint ⟨32, 0, 0⟩ ⟨32, 32, 32⟩) = true := by
  decide

/-- Modelled from the spec: `ChunkPoint3d.MinPoint(blockSize)` — the minimum
voxel of a block ("min corner = block min voxel", spec §4.7.4). -/
def MinPoint (c blockSize : Point3d) : Point3d :=
  ⟨c.x * blockSize.x, c.y * blockSize.y, c.z * blockSize.z⟩

/-- Modelled from the spec: `ChunkPoint3d.MaxPoint(blockSize)` — the maximum
voxel of a block ("max corner = block max voxel", spec §4.7.4). -/
def MaxPoint (c blockSize : Point3d) : Point3d :=
  ⟨(c.x + 1) * blockSize.x - 1, (c.y + 1) * blockSize.y - 1, (c.z + 1) * blockSize.z - 1⟩

/-- `subvolumeT` (roi.go lines 473-478). -/
structure subvolumeT where
  MinCorner : Point3d
  MaxCorner : Point3d
  TotalBlocks : Int
  ActiveBlocks : Int
deriving DecidableEq, Repr

/-- `subvolumesT` (roi.go lines 466-471). -/
structure subvolumesT where
  NumTotalBlocks : Int
  NumActiveBlocks : Int
  NumSubvolumes : Int
  Subvolumes : List subvolumeT
deriving DecidableEq, Repr

/-- `layerT` (roi.go lines 480-485). -/
structure layerT where
  activeBlocks : List indexRLE
  minX : Int
  maxX : Int
  minY : Int
  maxY : Int
  minZ : Int
  maxZ : Int
deriving DecidableEq, Repr

/-- `Data.newLayer` (roi.go lines 487-494). -/
def newLayer (z0 z1 : Int) : layerT :=
  ⟨[], 2147483647, -2147483648, 2147483647, -2147483648, z0, z1⟩

/-- `layerT.extend` (roi.go lines 496-515); `x1 := x0 + int32(span) - 1` in
`int32` arithmetic. -/
def layerT.extend (layer : layerT) (rle : indexRLE) : layerT :=
  let y := rle.start.y
  let x0 := rle.start.x
  let x1 := wrap32 (x0 + int32cast rle.span - 1)
  { layer with
    activeBlocks := layer.activeBlocks ++ [rle],
    minX := if layer.minX > x0 then x0 else layer.minX,
    maxX := if layer.maxX < x1 then x1 else layer.maxX,
    minY := if layer.minY > y then y else layer.minY,
    maxY := if layer.maxY < y then y else layer.maxY }

/-- `getYRange` (roi.go lines 530-544): min and max block-Y over a slice of
RLEs, plus whether the slice was nonempty. -/
def getYRange (blocks : List indexRLE) : Int × Int × Bool :=
  blocks.foldl
    (fun (acc : Int × Int × Bool) rle =>
      ⟨if rle.start.y < acc.1 then rle.start.y else acc.1,
       if rle.start.y > acc.2.1 then rle.start.y else acc.2.1,
       true⟩)
    ⟨2147483647, -2147483648, false⟩

/-- `getXRange` (roi.go lines 546-563): X extent over the RLEs whose Y lies
in `[minY, maxY]`, and that sublist. -/
def getXRange (blocks : List indexRLE) (minY maxY : Int) :
    Int × Int × List indexRLE :=
  blocks.foldl
    (fun (acc : Int × Int × List indexRLE) rle =>
      if minY ≤ rle.start.y ∧ rle.start.y ≤ maxY then
        let x1 := wrap32 (rle.start.x + int32cast rle.span - 1)
        ⟨if rle.start.x < acc.1 then rle.start.x else acc.1,
         if x1 > acc.2.1 then x1 else acc.2.1,
         acc.2.2 ++ [rle]⟩
      else acc)
    ⟨2147483647, -2147483648, []⟩

/-- `findActives` (roi.go lines 565-583): number of active blocks of the
given RLEs clipped to the X interval `[minX, maxX]`. -/
def findActives (blocks : List indexRLE) (minX maxX : Int) : Int :=
  blocks.foldl
    (fun numActive rle =>
      let spanBeg := rle.start.x
      if spanBeg > maxX then numActive
      else
        let spanEnd := wrap32 (spanBeg + int32cast rle.span - 1)
        if spanEnd < minX then numActive
        else
          let x0 := if minX > spanBeg then minX else spanBeg
          let x1 := if maxX < spanEnd then maxX else spanEnd
          wrap32 (numActive + (x1 - x0 + 1)))
    0

/-- `totalBlocks` (roi.go lines 585-590), in `int32` arithmetic. -/
def totalBlocks (minCorner maxCorner : Point3d) : Int :=
  wrap32 (wrap32 (maxCorner.x - minCorner.x + 1) *
          wrap32 (maxCorner.y - minCorner.y + 1) *
          wrap32 (maxCorner.z - minCorner.z + 1))

/-- The inner X loop of `Data.addSubvolumes` (roi.go lines 618-652).  `fuel`
bounds the iteration count (the Go loop never terminates when
`batchsize <= 0`, so a bound is needed for totality; every theorem below
supplies enough fuel for its input).  A merge with no previously emitted
subvolume evaluates `subvolumes.Subvolumes[-1]`, a Go runtime panic,
modelled as an error. -/
def xLoop (blockSize : Point3d) (layerMinZ layerMaxZ begY endY batchsize maxX
    mergeThreshold : Int) (actives : List indexRLE) :
    Int → Int → subvolumesT → Nat → Except String subvolumesT
  | _, _, _, 0 => .error "loop fuel exhausted"
  | begX, xleft, subvols, fuel + 1 =>
    if begX > maxX then .ok subvols
    else
      let endX0 := wrap32 (begX + batchsize - 1)
      let endX := if xleft > 0 then wrap32 (endX0 + 1) else endX0
      let xleft1 := if xleft > 0 then wrap32 (xleft - 1) else xleft
      let minCorner : Point3d := ⟨begX, begY, layerMinZ⟩
      let maxCorner : Point3d := ⟨endX, endY, layerMaxZ⟩
      let numTotal := totalBlocks minCorner maxCorner
      let numActive := findActives actives begX endX
      let step : Except String subvolumesT :=
        if numActive < mergeThreshold then
          match subvols.Subvolumes.getLast? with
          | none => .error "runtime error: index out of range"
          | some lastSub =>
            let merged : subvolumeT :=
              { lastSub with
                MaxCorner := MinPoint maxCorner blockSize,
                TotalBlocks := wrap32 (lastSub.TotalBlocks + numTotal),
                ActiveBlocks := wrap32 (lastSub.ActiveBlocks + numActive) }
            .ok { subvols with Subvolumes := subvols.Subvolumes.dropLast ++ [merged] }
        else
          .ok { subvols with
                Subvolumes := subvols.Subvolumes ++
                  [⟨MinPoint minCorner blockSize, MaxPoint maxCorner blockSize,
                    numTotal, numActive⟩] }
      match step with
      | .error e => .error e
      | .ok subvols1 =>
        xLoop blockSize layerMinZ layerMaxZ begY endY batchsize maxX
          mergeThreshold actives (wrap32 (endX + 1)) xleft1
          { subvols1 with
            NumActiveBlocks := wrap32 (subvols1.NumActiveBlocks + numActive),
            NumTotalBlocks := wrap32 (subvols1.NumTotalBlocks + numTotal) }
          fuel

/-- The outer Y loop of `Data.addSubvolumes` (roi.go lines 602-655). -/
def yLoop (blockSize : Point3d) (layerMinZ layerMaxZ batchsize maxY
    mergeThreshold : Int) (blocks : List indexRLE) :
    Int → Int → subvolumesT → Nat → Except String subvolumesT
  | _, _, _, 0 => .error "loop fuel exhausted"
  | begY, yleft, subvols, fuel + 1 =>
    if begY > maxY then .ok subvols
    else
      let endY0 := wrap32 (begY + batchsize - 1)
      let endY := if yleft > 0 then wrap32 (endY0 + 1) else endY0
      let yleft1 := if yleft > 0 then wrap32 (yleft - 1) else yleft
      let xr := getXRange blocks begY endY
      if xr.2.2.length > 0 then
        let dx := wrap32 (xr.2.1 - xr.1 + 1)
        let xleft := Int.tmod dx batchsize
        match xLoop blockSize layerMinZ layerMaxZ begY endY batchsize xr.2.1
            mergeThreshold xr.2.2 xr.1 xleft subvols fuel with
        | .error e => .error e
        | .ok subvols1 =>
          yLoop blockSize layerMinZ layerMaxZ batchsize maxY mergeThreshold
            blocks (wrap32 (endY + 1)) yleft1 subvols1 fuel
      else
        yLoop blockSize layerMinZ layerMaxZ batchsize maxY mergeThreshold
          blocks (wrap32 (endY + 1)) yleft1 subvols fuel

/-- `Data.addSubvolumes` (roi.go lines 592-656): merge threshold
`batchsize^3/10` (truncated `int32` division), Y range of the layer's
blocks, then the row/column tiling. -/
def addSubvolumes (blockSize : Point3d) (layer : layerT)
    (subvols : subvolumesT) (batchsize : Int) (fuel : Nat) :
    Except String subvolumesT :=
  let mergeThreshold := Int.tdiv (wrap32 (batchsize * batchsize * batchsize)) 10
  let yr := getYRange layer.activeBlocks
  if yr.2.2 = false then .ok subvols
  else
    let dy := wrap32 (yr.2.1 - yr.1 + 1)
    let yleft := Int.tmod dy batchsize
    yLoop blockSize layer.minZ layer.maxZ batchsize yr.2.1 mergeThreshold
      layer.activeBlocks yr.1 yleft subvols fuel

/-- Decode a stored 16-byte RLE key (roi.go lines 677-685 via
`indexRLE.IndexFromBytes`). -/
def decodeRLEkey (k : List Nat) : indexRLE :=
  ⟨⟨dec32 (fromBE4 ((k.drop 8).take 4)),
    dec32 (fromBE4 ((k.drop 4).take 4)),
    dec32 (fromBE4 (k.take 4))⟩,
   fromBE4 ((k.drop 12).take 4)⟩

/-- `Data.Partition` (roi.go lines 658-723): split Z starting at `MinZ` into
layers of `batchsize` (the leftover `dz mod batchsize` is added one Z at a
time to the layers after the first), stream the stored keys in ascending
order into layers, flushing each finished layer through `addSubvolumes`,
then flush the final nonempty layer and count subvolumes. -/
def dataPartition (blockSize : Point3d) (minZ maxZ : Int)
    (store : List (List Nat)) (batchsize : Int) (fuel : Nat) :
    Except String subvolumesT :=
  let dz := wrap32 (maxZ - minZ + 1)
  let zleft0 := Int.tmod dz batchsize
  let layerEndZ0 := wrap32 (minZ + batchsize - 1)
  let init : Except String (layerT × subvolumesT × Int × Int) :=
    .ok ⟨newLayer minZ layerEndZ0, ⟨0, 0, 0, []⟩, layerEndZ0, zleft0⟩
  let res := store.foldl
    (fun acc k =>
      match acc with
      | .error e => .error e
      | .ok ⟨layer, subvols, layerEndZ, zleft⟩ =>
        let index := decodeRLEkey k
        if index.start.z > layerEndZ then
          match addSubvolumes blockSize layer subvols batchsize fuel with
          | .error e => .error e
          | .ok subvols1 =>
            let layerBegZ := wrap32 (layerEndZ + 1)
            let layerEndZ1 := wrap32 (layerEndZ + batchsize)
            let layerEndZ2 := if zleft > 0 then wrap32 (layerEndZ1 + 1) else layerEndZ1
            let zleft1 := if zleft > 0 then wrap32 (zleft - 1) else zleft
            .ok ⟨(newLayer layerBegZ layerEndZ2).extend index, subvols1,
                 layerEndZ2, zleft1⟩
        else
          .ok ⟨layer.extend index, subvols, layerEndZ, zleft⟩)
    init
  match res with
  | .error e => .error e
  | .ok ⟨layer, subvols, _, _⟩ =>
    if layer.activeBlocks.length > 0 then
      match addSubvolumes blockSize layer subvols batchsize fuel with
      | .error e => .error e
      | .ok subvols1 =>
        .ok { subvols1 with NumSubvolumes := wrap32 (subvols1.Subvolumes.length : Int) }
    else
      .ok { subvols with NumSubvolumes := wrap32 (subvols.Subvolumes.length : Int) }

/-- C4 is half false of the code: an ROI with no blocks does return the
empty subvolume list with zero counters (first conjunct, here at batchsize
5 on a fresh instance whose extents are `MaxInt32/MinInt32`), but an ROI
with exactly ONE block makes `GET /partition?batchsize=3` panic instead of
returning one subvolume: the single column has 1 active block, below the
merge threshold `3^3/10 = 2`, so the code indexes
`Subvolumes[len(Subvolumes)-1]` with no emitted subvolume — index -1, a Go
runtime panic (roi.go lines 632-634). -/
theorem roi_c4_single_block_panic :
    dataPartition ⟨32, 32, 32⟩ freshMinZ freshMaxZ [] 5 32 =
      .ok ⟨0, 0, 0, []⟩ ∧
    dataPartition ⟨32, 32, 32⟩ 0 0
        (dataPut freshMinZ freshMaxZ [] [tuple.mk 0 0 0 0]).store 3 32 =
      .error "runtime error: index out of range" := by
  constructor
  · rfl
  · rfl

/-- C5 is false of the code in the merge case: with BlockSize (32,32,32),
ROI `[[0,0,0,2],[0,0,4,4]]` and batchsize 3, the first X column (blocks
0..3, 3 active ≥ threshold 2) is emitted with MaxCorner = MaxPoint, but the
second column (blocks 4..7, 1 active < 2) is merged using
`maxCorner.MinPoint(d.BlockSize)` (roi.go line 636): the merged subvolume's
MaxCorner becomes the MINIMUM voxel (224,96,64) of block (7,3,2) instead of
its maximum voxel (255,127,95) as the claim (and the emit branch) require. -/
theorem roi_c5_merge_mincorner :
    dataPartition ⟨32, 32, 32⟩ 0 0
        (dataPut freshMinZ freshMaxZ [] [tuple.mk 0 0 0 2, tuple.mk 0 0 4 4]).store 3 32 =
      .ok ⟨96, 4, 1, [⟨⟨0, 0, 0⟩, ⟨224, 96, 64⟩, 96, 4⟩]⟩ ∧
    MaxPoint ⟨7, 3, 2⟩ ⟨32, 32, 32⟩ = ⟨255, 127, 95⟩ := by
  constructor
  · rfl
  · rfl

/-- The successive `(layerBegZ, layerEndZ)` pairs maintained by
`Data.Partition` (roi.go lines 659-702): the first layer is
`[MinZ, MinZ + batchsize - 1]`; each flush advances by `batchsize` and adds
one extra Z while `zleft = (MaxZ - MinZ + 1) mod batchsize` lasts.  `n` is
how many layers to enumerate. -/
def partitionLayersAux (batchsize : Int) : Int → Int → Int → Nat → List (Int × Int)
  | _, _, _, 0 => []
  | begZ, endZ, zleft, n + 1 =>
    (begZ, endZ) ::
      (let begZ1 := wrap32 (endZ + 1)
       let endZ1 := wrap32 (endZ + batchsize)
       if zleft > 0 then
         partitionLayersAux batchsize begZ1 (wrap32 (endZ1 + 1)) (wrap32 (zleft - 1)) n
       else
         partitionLayersAux batchsize begZ1 endZ1 zleft n)

/-- The first `n` Z layers `Data.Partition` uses for given extents. -/
def partitionLayers (minZ maxZ batchsize : Int) (n : Nat) : List (Int × Int) :=
  let dz := wrap32 (maxZ - minZ + 1)
  partitionLayersAux batchsize minZ (wrap32 (minZ + batchsize - 1))
    (Int.tmod dz batchsize) n

/-- Helper for `claimedLayers`: emit `n` layers from `begZ`, the first
`r` of extent `batchsize + 1`, the rest of extent `batchsize`. -/
def claimedLayersAux (batchsize : Int) : Int → Int → Nat → List (Int × Int)
  | _, _, 0 => []
  | begZ, r, n + 1 =>
    let ext := if r > 0 then batchsize + 1 else batchsize
    (begZ, begZ + ext - 1) ::
      claimedLayersAux batchsize (begZ + ext) (if r > 0 then r - 1 else r) n

/-- The Z layering exactly as claim C6 states it: starting at `MinZ`, every
layer has extent `batchsize` except that the FIRST
`(MaxZ - MinZ + 1) mod batchsize` layers each get one extra Z. -/
def claimedLayers (minZ maxZ batchsize : Int) (n : Nat) : List (Int × Int) :=
  claimedLayersAux batchsize minZ (Int.tmod (wrap32 (maxZ - minZ + 1)) batchsize) n

lemma wrap32_eq_self (n : Int) (h1 : -2147483648 ≤ n) (h2 : n < 2147483648) :
    wrap32 n = n := by
  unfold wrap32; omega

lemma partitionLayersAux_extents (batchsize : Int) (hB : 1 ≤ batchsize) :
    ∀ (m : Nat) (begZ endZ zleft : Int),
      0 ≤ zleft → zleft < 2147483648 →
      -2147483648 ≤ endZ →
      endZ + ((m : Int) + 1) * (batchsize + 1) < 2147483648 →
      (partitionLayersAux batchsize begZ endZ zleft (m + 1)).map
          (fun p => p.2 - p.1 + 1) =
        (endZ - begZ + 1) ::
          (List.range m).map
            (fun (i : Nat) => if (i : Int) < zleft then batchsize + 1 else batchsize) := by
  intro m
  induction m with
  | zero =>
    intro begZ endZ zleft h0 h1 h2 h3
    simp [partitionLayersAux]
  | succ k ih =>
    intro begZ endZ zleft h0 h1 h2 h3
    have hk0 : (0 : Int) ≤ (k : Int) := Int.natCast_nonneg k
    have hmul : (0 : Int) ≤ ((k : Int) + 1) * (batchsize + 1) :=
      mul_nonneg (by omega) (by omega)
    push_cast at h3
    have hexp : ((k : Int) + 1 + 1) * (batchsize + 1)
        = ((k : Int) + 1) * (batchsize + 1) + (batchsize + 1) := by ring
    rw [hexp] at h3
    rw [partitionLayersAux]
    by_cases hz : zleft > 0
    · rw [if_pos hz, List.map_cons]
      rw [show wrap32 (endZ + 1) = endZ + 1 from wrap32_eq_self _ (by omega) (by omega)]
      rw [show wrap32 (endZ + batchsize) = endZ + batchsize from
        wrap32_eq_self _ (by omega) (by omega)]
      rw [show wrap32 (endZ + batchsize + 1) = endZ + batchsize + 1 from
        wrap32_eq_self _ (by omega) (by omega)]
      rw [show wrap32 (zleft - 1) = zleft - 1 from
        wrap32_eq_self _ (by omega) (by omega)]
      rw [ih (endZ + 1) (endZ + batchsize + 1) (zleft - 1) (by omega) (by omega)
        (by omega) (by omega)]
      congr 1
      rw [List.range_succ_eq_map, List.map_cons, List.map_map]
      congr 1
      · simp only [Nat.cast_zero]
        rw [if_pos hz]
        ring
      · refine List.map_congr_left ?_
        intro i _
        simp only [Function.comp]
        refine if_congr ?_ rfl rfl
        push_cast
        omega
    · rw [if_neg hz, List.map_cons]
      have hz0 : zleft = 0 := by omega
      rw [show wrap32 (endZ + 1) = endZ + 1 from wrap32_eq_self _ (by omega) (by omega)]
      rw [show wrap32 (endZ + batchsize) = endZ + batchsize from
        wrap32_eq_self _ (by omega) (by omega)]
      rw [ih (endZ + 1) (endZ + batchsize) zleft (by omega) (by omega)
        (by omega) (by omega)]
      congr 1
      rw [List.range_succ_eq_map, List.map_cons, List.map_map]
      congr 1
      · simp only [Nat.cast_zero]
        rw [if_neg (by omega)]
        ring
      · refine List.map_congr_left ?_
        intro i _
        simp only [Function.comp]
        refine if_congr ?_ rfl rfl
        push_cast
        omega

/-- C6 (amended): the Z axis is split into layers of extent `batchsize`,
except that it is the layers AFTER the first — layers 2 through
`(MaxZ − MinZ + 1) mod batchsize + 1` — that each get one extra Z; the first
layer always has extent exactly `batchsize`, so when the leftover is nonzero
the layer boundaries do not land exactly on `MaxZ`. -/
theorem roi_c6_amended (minZ maxZ batchsize : Int) (n : Nat)
    (hB : 1 ≤ batchsize)
    (h1 : -2147483648 ≤ minZ) (h2 : minZ ≤ maxZ)
    (h3 : maxZ - minZ + 1 < 2147483648)
    (h4 : minZ + batchsize - 1 + (n : Int) * (batchsize + 1) < 2147483648) :
    (partitionLayers minZ maxZ batchsize n).map (fun p => p.2 - p.1 + 1) =
      (List.range n).map
        (fun (i : Nat) => if i = 0 then batchsize
          else if (i : Int) ≤ Int.tmod (maxZ - minZ + 1) batchsize
          then batchsize + 1 else batchsize) := by
  have hmuln : (0 : Int) ≤ (n : Int) * (batchsize + 1) :=
    mul_nonneg (Int.natCast_nonneg n) (by omega)
  unfold partitionLayers
  rw [show wrap32 (maxZ - minZ + 1) = maxZ - minZ + 1 from
    wrap32_eq_self _ (by omega) (by omega)]
  rw [show wrap32 (minZ + batchsize - 1) = minZ + batchsize - 1 from
    wrap32_eq_self _ (by omega) (by omega)]
  have hdz0 : (0 : Int) ≤ maxZ - minZ + 1 := by omega
  have hmnn : 0 ≤ (maxZ - minZ + 1) % batchsize :=
    Int.emod_nonneg _ (by omega)
  have hml : (maxZ - minZ + 1) % batchsize ≤ maxZ - minZ + 1 := by
    by_cases hlt : maxZ - minZ + 1 < batchsize
    · rw [Int.emod_eq_of_lt hdz0 hlt]
    · have := Int.emod_lt_of_pos (maxZ - minZ + 1) (show 0 < batchsize by omega)
      omega
  have hr0 : 0 ≤ Int.tmod (maxZ - minZ + 1) batchsize := by
    rw [Int.tmod_eq_emod (by omega) (by omega)]
    exact hmnn
  have hrB : Int.tmod (maxZ - minZ + 1) batchsize < 2147483648 := by
    rw [Int.tmod_eq_emod (by omega) (by omega)]
    omega
  cases n with
  | zero => simp [partitionLayersAux]
  | succ m =>
    have hc : ((m + 1 : Nat) : Int) = (m : Int) + 1 := by push_cast; ring
    rw [hc] at h4
    rw [partitionLayersAux_extents batchsize hB m minZ (minZ + batchsize - 1)
      (Int.tmod (maxZ - minZ + 1) batchsize) hr0 hrB (by omega) (by omega)]
    rw [List.range_succ_eq_map, List.map_cons, List.map_map]
    congr 1
    rw [if_pos rfl]
    ring

theorem roi_c6_amended_witness :
    ((1 : Int) ≤ 3 ∧ (-2147483648 : Int) ≤ 0 ∧ (0 : Int) ≤ 3 ∧
      (3 : Int) - 0 + 1 < 2147483648 ∧
      (0 : Int) + 3 - 1 + (2 : Nat) * ((3 : Int) + 1) < 2147483648) ∧
    (partitionLayers 0 3 3 2).map (fun p => p.2 - p.1 + 1) =
      (List.range 2).map
        (fun (i : Nat) => if i = 0 then (3 : Int)
          else if (i : Int) ≤ Int.tmod ((3 : Int) - 0 + 1) 3 then 3 + 1 else 3) :=
  ⟨⟨by norm_num, by norm_num, by norm_num, by norm_num, by norm_num⟩,
    roi_c6_amended 0 3 3 2 (by norm_num) (by norm_num) (by norm_num)
      (by norm_num) (by norm_num)⟩

/-- C6 as stated is false: for MinZ 0, MaxZ 3, batchsize 3 the leftover is
`4 mod 3 = 1`, so the claim requires the FIRST layer to get the extra Z —
`claimedLayers` gives `[(0,3)]`, covering `[0,3]` exactly — but the code's
first layer is `[(0,2)]` (extent 3, not 4): `Data.Partition` hands the extra
Z only to layers after the first (roi.go lines 663-664 vs 696-701). -/
theorem roi_c6_counterexample :
    partitionLayers 0 3 3 1 = [(0, 2)] ∧
    claimedLayers 0 3 3 1 = [(0, 3)] ∧
    partitionLayers 0 3 3 1 ≠ claimedLayers 0 3 3 1 := by
  refine ⟨by decide, by decide, by decide⟩

/-- A sequence of accepted `POST /roi` bodies applied to a freshly created
ROI instance: extents start at `MaxInt32`/`MinInt32` (roi.go line 186) and
`repoSaved` is false until a `Put` runs. -/
def applyPosts (posts : List (List tuple)) : PutResult :=
  posts.foldl (fun r spans => dataPut r.minZ r.maxZ r.store spans)
    ⟨freshMinZ, freshMaxZ, [], false⟩

lemma foldl_minz_le_init (l : List tuple) :
    ∀ a : Int, l.foldl (fun a sp => if sp.z < a then sp.z else a) a ≤ a := by
  induction l with
  | nil => intro a; exact le_refl a
  | cons sp rest ih =>
    intro a
    rw [List.foldl_cons]
    refine le_trans (ih _) ?_
    by_cases h : sp.z < a
    · rw [if_pos h]; omega
    · rw [if_neg h]

lemma foldl_minz_le_z (l : List tuple) :
    ∀ a : Int, ∀ t ∈ l, l.foldl (fun a sp => if sp.z < a then sp.z else a) a ≤ t.z := by
  induction l with
  | nil => intro a t ht; exact absurd ht (List.not_mem_nil t)
  | cons sp rest ih =>
    intro a t ht
    rw [List.foldl_cons]
    rcases List.mem_cons.mp ht with h | h
    · subst h
      refine le_trans (foldl_minz_le_init rest _) ?_
      by_cases hlt : t.z < a
      · rw [if_pos hlt]
      · rw [if_neg hlt]; omega
    · exact ih _ t h

lemma foldl_minz_mem_or (l : List tuple) :
    ∀ a : Int, l.foldl (fun a sp => if sp.z < a then sp.z else a) a = a ∨
      ∃ t ∈ l, l.foldl (fun a sp => if sp.z < a then sp.z else a) a = t.z := by
  induction l with
  | nil => intro a; exact Or.inl rfl
  | cons sp rest ih =>
    intro a
    rw [List.foldl_cons]
    rcases ih (if sp.z < a then sp.z else a) with h | ⟨t, ht, h⟩
    · by_cases hlt : sp.z < a
      · right
        exact ⟨sp, List.mem_cons_self sp rest, by rw [h, if_pos hlt]⟩
      · left
        rw [h, if_neg hlt]
    · right
      exact ⟨t, List.mem_cons_of_mem sp ht, h⟩

lemma foldl_maxz_ge_init (l : List tuple) :
    ∀ a : Int, a ≤ l.foldl (fun a sp => if sp.z > a then sp.z else a) a := by
  induction l with
  | nil => intro a; exact le_refl a
  | cons sp rest ih =>
    intro a
    rw [List.foldl_cons]
    refine le_trans ?_ (ih _)
    by_cases h : sp.z > a
    · rw [if_pos h]; omega
    · rw [if_neg h]

lemma foldl_maxz_ge_z (l : List tuple) :
    ∀ a : Int, ∀ t ∈ l, t.z ≤ l.foldl (fun a sp => if sp.z > a then sp.z else a) a := by
  induction l with
  | nil => intro a t ht; exact absurd ht (List.not_mem_nil t)
  | cons sp rest ih =>
    intro a t ht
    rw [List.foldl_cons]
    rcases List.mem_cons.mp ht with h | h
    · subst h
      refine le_trans ?_ (foldl_maxz_ge_init rest _)
      by_cases hgt : t.z > a
      · rw [if_pos hgt]
      · rw [if_neg hgt]; omega
    · exact ih _ t h

lemma foldl_maxz_mem_or (l : List tuple) :
    ∀ a : Int, l.foldl (fun a sp => if sp.z > a then sp.z else a) a = a ∨
      ∃ t ∈ l, l.foldl (fun a sp => if sp.z > a then sp.z else a) a = t.z := by
  induction l with
  | nil => intro a; exact Or.inl rfl
  | cons sp rest ih =>
    intro a
    rw [List.foldl_cons]
    rcases ih (if sp.z > a then sp.z else a) with h | ⟨t, ht, h⟩
    · by_cases hgt : sp.z > a
      · right
        exact ⟨sp, List.mem_cons_self sp rest, by rw [h, if_pos hgt]⟩
      · left
        rw [h, if_neg hgt]
    · right
      exact ⟨t, List.mem_cons_of_mem sp ht, h⟩

lemma applyPosts_fold (posts : List (List tuple)) :
    ∀ res : PutResult,
      (posts.foldl (fun r spans => dataPut r.minZ r.maxZ r.store spans) res).minZ =
        (posts.flatten).foldl (fun a sp => if sp.z < a then sp.z else a) res.minZ ∧
      (posts.foldl (fun r spans => dataPut r.minZ r.maxZ r.store spans) res).maxZ =
        (posts.flatten).foldl (fun a sp => if sp.z > a then sp.z else a) res.maxZ := by
  induction posts with
  | nil => intro res; exact ⟨rfl, rfl⟩
  | cons p ps ih =>
    intro res
    rw [List.foldl_cons, List.flatten_cons, List.foldl_append, List.foldl_append]
    have h := ih (dataPut res.minZ res.maxZ res.store p)
    have hc := dataPut_components p res.minZ res.maxZ res.store
    constructor
    · rw [h.1, hc.2.1]
    · rw [h.2, hc.2.2]

lemma applyPosts_minZ (posts : List (List tuple)) :
    (applyPosts posts).minZ =
      (posts.flatten).foldl (fun a sp => if sp.z < a then sp.z else a) freshMinZ :=
  (applyPosts_fold posts ⟨freshMinZ, freshMaxZ, [], false⟩).1

lemma applyPosts_maxZ (posts : List (List tuple)) :
    (applyPosts posts).maxZ =
      (posts.flatten).foldl (fun a sp => if sp.z > a then sp.z else a) freshMaxZ :=
  (applyPosts_fold posts ⟨freshMinZ, freshMaxZ, [], false⟩).2

lemma applyPosts_saved (posts : List (List tuple)) :
    ∀ res : PutResult, posts ≠ [] →
      (posts.foldl (fun r spans => dataPut r.minZ r.maxZ r.store spans) res).repoSaved
        = true := by
  induction posts with
  | nil => intro res h; exact absurd rfl h
  | cons p ps ih =>
    intro res _
    rw [List.foldl_cons]
    cases ps with
    | nil => rfl
    | cons q qs => exact ih _ (by simp)

/-- C8: starting from a fresh instance, after any sequence of accepted
`POST /roi` requests that inserted at least one span, `MinZ` equals the
minimum and `MaxZ` the maximum block-Z over every span ever inserted
(membership plus being a lower/upper bound), and the repo save hook has
been triggered. -/
theorem roi_c8_extents (posts : List (List tuple))
    (hr : ∀ t ∈ posts.flatten, -2147483648 ≤ t.z ∧ t.z < 2147483648)
    (hne : posts.flatten ≠ []) :
    ((applyPosts posts).minZ ∈ (posts.flatten).map tuple.z ∧
      ∀ t ∈ posts.flatten, (applyPosts posts).minZ ≤ t.z) ∧
    ((applyPosts posts).maxZ ∈ (posts.flatten).map tuple.z ∧
      ∀ t ∈ posts.flatten, t.z ≤ (applyPosts posts).maxZ) ∧
    (applyPosts posts).repoSaved = true := by
  obtain ⟨t0, ht0⟩ := List.exists_mem_of_ne_nil _ hne
  have hposts_ne : posts ≠ [] := by
    intro h; subst h; exact hne rfl
  refine ⟨⟨?_, ?_⟩, ⟨?_, ?_⟩, applyPosts_saved posts _ hposts_ne⟩
  · rcases foldl_minz_mem_or posts.flatten freshMinZ with h | ⟨t, ht, h⟩
    · have hle := foldl_minz_le_z posts.flatten freshMinZ t0 ht0
      have := hr t0 ht0
      have heq : (applyPosts posts).minZ = t0.z := by
        rw [applyPosts_minZ]
        have hfm : freshMinZ = 2147483647 := rfl
        omega
      rw [heq]
      exact List.mem_map_of_mem tuple.z ht0
    · have heq : (applyPosts posts).minZ = t.z := by
        rw [applyPosts_minZ, h]
      rw [heq]
      exact List.mem_map_of_mem tuple.z ht
  · intro t ht
    rw [applyPosts_minZ]
    exact foldl_minz_le_z posts.flatten freshMinZ t ht
  · rcases foldl_maxz_mem_or posts.flatten freshMaxZ with h | ⟨t, ht, h⟩
    · have hge := foldl_maxz_ge_z posts.flatten freshMaxZ t0 ht0
      have := hr t0 ht0
      have heq : (applyPosts posts).maxZ = t0.z := by
        rw [applyPosts_maxZ]
        have hfM : freshMaxZ = -2147483648 := rfl
        omega
      rw [heq]
      exact List.mem_map_of_mem tuple.z ht0
    · have heq : (applyPosts posts).maxZ = t.z := by
        rw [applyPosts_maxZ, h]
      rw [heq]
      exact List.mem_map_of_mem tuple.z ht
  · intro t ht
    rw [applyPosts_maxZ]
    exact foldl_maxz_ge_z posts.flatten freshMaxZ t ht

theorem roi_c8_extents_witness :
    ((∀ t ∈ [[tuple.mk 5 0 0 0], [tuple.mk 2 1 1 1]].flatten,
        -2147483648 ≤ t.z ∧ t.z < 2147483648) ∧
      [[tuple.mk 5 0 0 0], [tuple.mk 2 1 1 1]].flatten ≠ []) ∧
    (((applyPosts [[tuple.mk 5 0 0 0], [tuple.mk 2 1 1 1]]).minZ ∈
        ([[tuple.mk 5 0 0 0], [tuple.mk 2 1 1 1]].flatten).map tuple.z ∧
      ∀ t ∈ [[tuple.mk 5 0 0 0], [tuple.mk 2 1 1 1]].flatten,
        (applyPosts [[tuple.mk 5 0 0 0], [tuple.mk 2 1 1 1]]).minZ ≤ t.z) ∧
    ((applyPosts [[tuple.mk 5 0 0 0], [tuple.mk 2 1 1 1]]).maxZ ∈
        ([[tuple.mk 5 0 0 0], [tuple.mk 2 1 1 1]].flatten).map tuple.z ∧
      ∀ t ∈ [[tuple.mk 5 0 0 0], [tuple.mk 2 1 1 1]].flatten,
        t.z ≤ (applyPosts [[tuple.mk 5 0 0 0], [tuple.mk 2 1 1 1]]).maxZ) ∧
    (applyPosts [[tuple.mk 5 0 0 0], [tuple.mk 2 1 1 1]]).repoSaved = true) :=
  ⟨⟨by decide, by decide⟩,
    roi_c8_extents [[tuple.mk 5 0 0 0], [tuple.mk 2 1 1 1]] (by decide) (by decide)⟩

/-- Outcome of running a middleware-wrapped handler. -/
inductive HandlerOutcome where
  | badRequest : String → HandlerOutcome
  | handled : HandlerOutcome
deriving DecidableEq, Repr

/-- `strings.ToLower` restricted to ASCII, as applied to HTTP method
names. -/
def toLowerStr (s : String) : String := ⟨s.data.map Char.toLower⟩

/-- The read-only refusal message of `repoSelector` (part_000 line 287). -/
def readOnlyMsg : String :=
  "Server in read-only mode and will only accept GET and HEAD requests"

/-- `repoSelector` middleware (part_000 lines 283-306): lowercase the
method; under the read-only flag refuse anything but get/head with a 400
BEFORE resolving the UUID or running the wrapped handler `h`.  UUID
resolution (`datastore.MatchingUUID`/`RepoFromUUID`, not under `src/`) is
abstracted to a Boolean success flag. -/
def repoSelector (readonly : Bool) (method : String) (uuidResolves : Bool)
    (h : HandlerOutcome) : HandlerOutcome :=
  let action := toLowerStr method
  if readonly = true ∧ action ≠ "get" ∧ action ≠ "head" then
    .badRequest readOnlyMsg
  else if uuidResolves = false then .badRequest "invalid UUID"
  else h

/-- Requests under `/api/repo/:uuid/*` go through `repoSelector` and then
the route handler (part_000 lines 220-227). -/
def repoDispatch (readonly : Bool) (method : String) (uuidResolves : Bool)
    (h : HandlerOutcome) : HandlerOutcome :=
  repoSelector readonly method uuidResolves h

/-- Requests under `/api/node/:uuid/:dataname/:keyword(/*)` go through
`repoSelector`, then `instanceSelector` (abstracted to a success flag), then
the data instance's handler (part_000 lines 229-234, 310-340). -/
def nodeDispatch (readonly : Bool) (method : String)
    (uuidResolves instanceResolves : Bool) (h : HandlerOutcome) :
    HandlerOutcome :=
  repoSelector readonly method uuidResolves
    (if instanceResolves = false then .badRequest "unknown data instance" else h)

/-- The `(verb, pattern)` pairs registered by `initRoutes` (part_000 lines
191-237), in registration order; the `/api/repos` POST route is registered
only when the server is not read-only (lines 215-217). -/
def initRoutesList (readonly : Bool) : List (String × String) :=
  [("get", "/api/load"),
   ("get", "/interface"), ("get", "/interface/version"),
   ("get", "/api/help"), ("get", "/api/help/"), ("get", "/api/help/:typename"),
   ("get", "/api/server/info"), ("get", "/api/server/info/"),
   ("get", "/api/server/types"), ("get", "/api/server/types/")]
  ++ (if readonly then [] else [("post", "/api/repos")])
  ++ [("get", "/api/repos/info"),
      ("get", "/api/repo/:uuid/info"), ("post", "/api/repo/:uuid/instance"),
      ("post", "/api/repo/:uuid/lock"), ("post", "/api/repo/:uuid/branch"),
      ("delete", "/api/repo/:uuid/:dataname"),
      ("any", "/api/node/:uuid/:dataname/:keyword"),
      ("any", "/api/node/:uuid/:dataname/:keyword/*"),
      ("get", "/*")]

/-- C9: with the read-only flag set, every request whose (lowercased) method
is neither get nor head is refused with the 400 read-only message on both
the `/api/repo/...` and `/api/node/...` subtrees, whatever the UUID or
instance resolution would have produced and whatever the route handler would
have answered — the handler is never consulted; and `POST /api/repos` is
registered only without the read-only flag. -/
theorem server_c9_readonly (method : String) (u i : Bool) (h : HandlerOutcome)
    (hm1 : toLowerStr method ≠ "get") (hm2 : toLowerStr method ≠ "head") :
    repoDispatch true method u h = .badRequest readOnlyMsg ∧
    nodeDispatch true method u i h = .badRequest readOnlyMsg ∧
    ("post", "/api/repos") ∉ initRoutesList true ∧
    ("post", "/api/repos") ∈ initRoutesList false := by
  refine ⟨?_, ?_, by decide, by decide⟩
  · unfold repoDispatch repoSelector
    rw [if_pos ⟨rfl, hm1, hm2⟩]
  · unfold nodeDispatch repoSelector
    rw [if_pos ⟨rfl, hm1, hm2⟩]

theorem server_c9_readonly_witness :
    (toLowerStr "POST" ≠ "get" ∧ toLowerStr "POST" ≠ "head") ∧
    (repoDispatch true "POST" true .handled = .badRequest readOnlyMsg ∧
      nodeDispatch true "POST" true true .handled = .badRequest readOnlyMsg ∧
      ("post", "/api/repos") ∉ initRoutesList true ∧
      ("post", "/api/repos") ∈ initRoutesList false) :=
  ⟨⟨by decide, by decide⟩,
    server_c9_readonly "POST" true true .handled (by decide) (by decide)⟩

/-- Go `strconv.Atoi`: optional single sign, then one or more decimal
digits; anything else (including the empty string) is an error.  The 64-bit
range check is not modelled — it affects no claim here. -/
def atoi (s : String) : Option Int :=
  match s.data with
  | [] => none
  | c :: rest =>
    let signed : Bool × List Char :=
      if c = '-' then (true, rest)
      else if c = '+' then (false, rest)
      else (false, c :: rest)
    if signed.2.isEmpty then none
    else if signed.2.all Char.isDigit then
      let n : Nat := signed.2.foldl (fun a d => a * 10 + (d.toNat - 48)) 0
      some (if signed.1 then -(n : Int) else (n : Int))
    else none

/-- Whether `pat` is a leading prefix of `cs`. -/
def strStartsWith : List Char → List Char → Bool
  | [], _ => true
  | _ :: _, [] => false
  | p :: ps, c :: cs => p = c && strStartsWith ps cs

/-- Whether `pat` occurs as a contiguous substring of `cs`. -/
def strContains (pat : List Char) : List Char → Bool
  | [] => strStartsWith pat []
  | c :: cs => strStartsWith pat (c :: cs) || strContains pat cs

/-- The partition section of the in-code help message
(roi.go lines 126-129). -/
def partitionHelpText : String :=
  "GET <api URL>/node/<UUID>/<data name>/partition?batchsize=8\n\n\tReturns JSON of subvolumes that are batchsize^3 blocks in volume and cover the ROI.\n\tIf the optional batchsize is omitted, the default is 8."

/-- HTTP outcome of the partition branch of `Data.ServeHTTP`. -/
inductive PartitionHTTPResult where
  | badRequest : String → PartitionHTTPResult
  | ok : subvolumesT → PartitionHTTPResult
  | panicked : String → PartitionHTTPResult
deriving DecidableEq, Repr

/-- The `"partition"` case of `Data.ServeHTTP` (roi.go lines 837-859): read
the `batchsize` query value (`url.Values.Get` returns the empty string when
the parameter is absent), `strconv.Atoi` it, answer 400 on any Atoi error
without partitioning, otherwise run `Partition` with `int32(batchsize)`.
A runtime panic inside `Partition` propagates out (`panicked`). -/
def servePartition (blockSize : Point3d) (minZ maxZ : Int)
    (store : List (List Nat)) (fuel : Nat) (query : List (String × String)) :
    PartitionHTTPResult :=
  let batchsizeStr := (query.lookup "batchsize").getD ""
  match atoi batchsizeStr with
  | none => .badRequest "Error reading batchsize query string"
  | some n =>
    match dataPartition blockSize minZ maxZ store (wrap32 n) fuel with
    | .error e => .panicked e
    | .ok subvols => .ok subvols

/-- C10: a `GET /partition` whose query string omits `batchsize` or supplies
a non-decimal value gets a 400 and no partitioning is performed — there is
no default batchsize — even though the in-code help message advertises "If
the optional batchsize is omitted, the default is 8." -/
theorem roi_c10_batchsize_required (blockSize : Point3d) (minZ maxZ : Int)
    (store : List (List Nat)) (fuel : Nat) (query : List (String × String))
    (hq : atoi ((query.lookup "batchsize").getD "") = none) :
    servePartition blockSize minZ maxZ store fuel query =
      .badRequest "Error reading batchsize query string" ∧
    strContains ("the default is 8".data) partitionHelpText.data = true := by
  constructor
  · simp only [servePartition, hq]
  · decide

theorem roi_c10_batchsize_required_witness :
    (atoi ((([] : List (String × String)).lookup "batchsize").getD "") = none ∧
      atoi (([("batchsize", "eight")].lookup "batchsize").getD "") = none) ∧
    (servePartition ⟨32, 32, 32⟩ 0 0 [] 8 [] =
        .badRequest "Error reading batchsize query string" ∧
      strContains ("the default is 8".data) partitionHelpText.data = true) ∧
    (servePartition ⟨32, 32, 32⟩ 0 0 [] 8 [("batchsize", "eight")] =
        .badRequest "Error reading batchsize query string" ∧
      strContains ("the default is 8".data) partitionHelpText.data = true) :=
  ⟨⟨by decide, by decide⟩,
    roi_c10_batchsize_required ⟨32, 32, 32⟩ 0 0 [] 8 [] (by decide),
    roi_c10_batchsize_required ⟨32, 32, 32⟩ 0 0 [] 8 [("batchsize", "eight")]
      (by decide)⟩
